import Mathlib

/-!
# Verification of dsk2woz2 (DSK → WOZ2 disk-image converter)

Shallow embedding of `dsk2woz2.c`.  Machine integers are modelled as `Nat`
with explicit `% 2^w` where the C code's fixed-width storage matters; byte
buffers are either `Nat → Nat` (for the random-access bit buffer used by
`bits_write_byte`) or `List Nat` (for the chunk payloads that are built
sequentially and concatenated).
-/

namespace Dsk2Woz2

/-! ## Sector encoder: `encode_6_and_2` -/

/-- The fixed 64-entry nibble table `six_and_two_mapping` from `encode_6_and_2`. -/
def six_and_two_mapping : List Nat :=
  [0x96, 0x97, 0x9a, 0x9b, 0x9d, 0x9e, 0x9f, 0xa6,
   0xa7, 0xab, 0xac, 0xad, 0xae, 0xaf, 0xb2, 0xb3,
   0xb4, 0xb5, 0xb6, 0xb7, 0xb9, 0xba, 0xbb, 0xbc,
   0xbd, 0xbe, 0xbf, 0xcb, 0xcd, 0xce, 0xcf, 0xd3,
   0xd6, 0xd7, 0xd9, 0xda, 0xdb, 0xdc, 0xdd, 0xde,
   0xdf, 0xe5, 0xe6, 0xe7, 0xe9, 0xea, 0xeb, 0xec,
   0xed, 0xee, 0xef, 0xf2, 0xf3, 0xf4, 0xf5, 0xf6,
   0xf7, 0xf9, 0xfa, 0xfb, 0xfc, 0xfd, 0xfe, 0xff]

/-- The 2-bit reversal table `bit_reverse` (`{0, 2, 1, 3}`) indexed by a
two-bit value. -/
def bit_reverse (n : Nat) : Nat := [0, 2, 1, 3].getD n 0

/-- The contents of `dest[c]` after the two fill loops of `encode_6_and_2`
(pre-nibble bytes `0..85`, high parts `86..341`); index `342` is not yet
written at this stage (the C code writes it next from `dest[341]`). -/
def dest_fill (src : Nat → Nat) (c : Nat) : Nat :=
  if c < 84 then
    bit_reverse (src c % 4) |||
    (bit_reverse (src (c + 86) % 4) <<< 2) |||
    (bit_reverse (src (c + 172) % 4) <<< 4)
  else if c = 84 then
    bit_reverse (src 84 % 4) ||| (bit_reverse (src 170 % 4) <<< 2)
  else if c = 85 then
    bit_reverse (src 85 % 4) ||| (bit_reverse (src 171 % 4) <<< 2)
  else if c < 342 then
    src (c - 86) >>> 2
  else 0

/-- The contents of `dest` after `dest[342] = dest[341]` in `encode_6_and_2`. -/
def dest_dup (src : Nat → Nat) (c : Nat) : Nat :=
  if c = 342 then dest_fill src 341 else dest_fill src c

/-- One iteration of the XOR while-loop body `dest[location] ^= dest[location-1]`. -/
def xor_step (d : Nat → Nat) (i : Nat) : Nat → Nat :=
  fun j => if j = i then d i ^^^ d (i - 1) else d j

/-- The XOR while-loop of `encode_6_and_2`:
`while (location > 1) { location--; dest[location] ^= dest[location-1]; }`,
parameterised by the current value of `location`. -/
def xor_loop (d : Nat → Nat) : Nat → (Nat → Nat)
  | 0 => d
  | 1 => d
  | l + 2 => xor_loop (xor_step d (l + 1)) (l + 1)

/-- The contents of `dest` after the XOR loop of `encode_6_and_2`
(entered with `location = 342`). -/
def dest_post (src : Nat → Nat) : Nat → Nat := xor_loop (dest_dup src) 342

/-- `encode_6_and_2`: byte `c` of the 343-byte output (final table lookup
applied to the post-XOR value). -/
def encode_6_and_2 (src : Nat → Nat) (c : Nat) : Nat :=
  six_and_two_mapping.getD (dest_post src c) 0

/-- The 343-byte output of `encode_6_and_2` as a list. -/
def encodedSector (src : Nat → Nat) : List Nat :=
  (List.range 343).map (encode_6_and_2 src)

/-! ### Reference 6-and-2 algorithm, following the specification's words

The spec describes bytes `0..83` as packing the bit-reversed low parts "into
bit fields 0–1, 2–3, 4–5", which we render arithmetically
(`+ 4 * _ + 16 * _`); bytes `86..341` are the high parts `src[c] >> 2`;
byte 342 duplicates byte 341; and the claimed XOR chain runs from index 342
down to index 1, each byte XORed with its original (pre-update) predecessor. -/

/-- Pre-XOR byte `c` per the specification's description (packing rendered as
arithmetic placement into 2-bit fields). -/
def spec_base (src : Nat → Nat) (c : Nat) : Nat :=
  if c < 84 then
    bit_reverse (src c % 4) + 4 * bit_reverse (src (c + 86) % 4) +
      16 * bit_reverse (src (c + 172) % 4)
  else if c = 84 then
    bit_reverse (src 84 % 4) + 4 * bit_reverse (src 170 % 4)
  else if c = 85 then
    bit_reverse (src 85 % 4) + 4 * bit_reverse (src 171 % 4)
  else if c < 342 then
    src (c - 86) >>> 2
  else 0

/-- Pre-XOR sequence per the specification: byte 342 duplicates byte 341. -/
def spec_pre (src : Nat → Nat) (c : Nat) : Nat :=
  if c = 342 then spec_base src 341 else spec_base src c

/-- The claim's XOR chain: every byte from index 342 down to index 1 is XORed
with its original (pre-update) predecessor. -/
def spec_xored (src : Nat → Nat) (c : Nat) : Nat :=
  if 1 ≤ c ∧ c ≤ 342 then spec_pre src c ^^^ spec_pre src (c - 1) else spec_pre src c

/-- Reference encoded sector per the claim's literal words (XOR chain from
index 342 down to 1), mapped through the nibble table. -/
def spec_encodedSector (src : Nat → Nat) : List Nat :=
  (List.range 343).map (fun c => six_and_two_mapping.getD (spec_xored src c) 0)

/-- The amended XOR chain: every byte from index 341 (not 342) down to index 1
is XORed with its original predecessor; byte 342 keeps the duplicated value. -/
def spec_xored_amended (src : Nat → Nat) (c : Nat) : Nat :=
  if 1 ≤ c ∧ c ≤ 341 then spec_pre src c ^^^ spec_pre src (c - 1) else spec_pre src c

/-- Amended reference encoded sector (XOR chain from index 341 down to 1). -/
def spec_encodedSector_amended (src : Nat → Nat) : List Nat :=
  (List.range 343).map (fun c => six_and_two_mapping.getD (spec_xored_amended src c) 0)

/-! ### Characterizing the XOR while-loop -/

/-- The XOR while-loop entered at `location = n` XORs exactly the bytes at
indices `n-1` down to `1`, each with its original predecessor. -/
theorem xor_loop_apply : ∀ (n : Nat) (d : Nat → Nat) (j : Nat),
    xor_loop d n j = if 1 ≤ j ∧ j < n then d j ^^^ d (j - 1) else d j := by
  intro n
  induction n using Nat.strong_induction_on with
  | _ n ih =>
    intro d j
    match n with
    | 0 => rw [xor_loop, if_neg (by omega)]
    | 1 => rw [xor_loop, if_neg (by omega)]
    | l + 2 =>
      rw [xor_loop, ih (l + 1) (by omega)]
      simp only [xor_step]
      by_cases hj : j = l + 1
      · subst hj
        rw [if_neg (by omega), if_pos rfl, if_pos (by omega)]
      · by_cases hlt : 1 ≤ j ∧ j < l + 1
        · rw [if_pos hlt, if_neg hj, if_neg (by omega), if_pos (by omega)]
        · rw [if_neg hlt, if_neg hj, if_neg (by omega)]

/-- Closed form of the post-XOR contents of `dest` in `encode_6_and_2`. -/
theorem dest_post_eq (src : Nat → Nat) (j : Nat) :
    dest_post src j =
      if 1 ≤ j ∧ j < 342 then dest_dup src j ^^^ dest_dup src (j - 1)
      else dest_dup src j := by
  rw [dest_post, xor_loop_apply]

/-- The two-bit reversal table only produces values below 4. -/
theorem bit_reverse_lt (n : Nat) : bit_reverse n < 4 := by
  unfold bit_reverse
  match n with
  | 0 => decide
  | 1 => decide
  | 2 => decide
  | 3 => decide
  | m + 4 => simp [List.getD]

/-- The code's OR-and-shift packing agrees with the spec's arithmetic
placement into 2-bit fields, for two-bit operands. -/
theorem or_shift_packing :
    ∀ a < 4, ∀ b < 4, ∀ c < 4,
      a ||| (b <<< 2) ||| (c <<< 4) = a + 4 * b + 16 * c := by decide

/-- Two-field variant of `or_shift_packing`. -/
theorem or_shift_packing₂ :
    ∀ a < 4, ∀ b < 4, a ||| (b <<< 2) = a + 4 * b := by decide

/-- The code's pre-XOR fill equals the spec's arithmetic packing. -/
theorem dest_fill_eq_spec_base (src : Nat → Nat) (c : Nat) :
    dest_fill src c = spec_base src c := by
  unfold dest_fill spec_base
  split_ifs
  · exact or_shift_packing _ (bit_reverse_lt _) _ (bit_reverse_lt _) _ (bit_reverse_lt _)
  · exact or_shift_packing₂ _ (bit_reverse_lt _) _ (bit_reverse_lt _)
  · exact or_shift_packing₂ _ (bit_reverse_lt _) _ (bit_reverse_lt _)
  · rfl
  · rfl

/-- The code's duplicated pre-XOR sequence equals the spec's. -/
theorem dest_dup_eq_spec_pre (src : Nat → Nat) (c : Nat) :
    dest_dup src c = spec_pre src c := by
  unfold dest_dup spec_pre
  split_ifs <;> exact dest_fill_eq_spec_base ..

/-- The code's post-XOR byte equals the amended reference's post-XOR byte. -/
theorem dest_post_eq_amended (src : Nat → Nat) (c : Nat) :
    dest_post src c = spec_xored_amended src c := by
  rw [dest_post_eq, spec_xored_amended]
  by_cases h : 1 ≤ c ∧ c < 342
  · rw [if_pos h, if_pos (by omega), dest_dup_eq_spec_pre, dest_dup_eq_spec_pre]
  · rw [if_neg h, if_neg (by omega), dest_dup_eq_spec_pre]

/-- C1 (counterexample): on the all-`0xFF` sector, `encode_6_and_2` does not
equal the claimed reference algorithm whose XOR chain runs from index 342 down
to index 1: the code's XOR loop never touches index 342, so output byte 342
differs. -/
theorem encode_6_and_2_ne_claimed_reference :
    encodedSector (fun _ => 255) ≠ spec_encodedSector (fun _ => 255) := by
  intro h
  have h342 := congrArg (fun l => l.getD 342 0) h
  simp only [encodedSector, spec_encodedSector, List.getD_eq_getElem?_getD,
    List.getElem?_map, List.getElem?_range (show 342 < 343 by decide),
    Option.map_some', Option.getD_some] at h342
  unfold encode_6_and_2 at h342
  rw [dest_post_eq] at h342
  revert h342
  decide

/-- C1 (amended): for every 256-byte input sector, `encode_6_and_2` equals the
reference 6-and-2 algorithm in which bytes 0..83 pack the bit-reversed 2-bit
low parts of source bytes `c`, `c+86`, `c+172` into bit fields 0–1, 2–3, 4–5,
bytes 84–85 pack two low-part fields each, bytes 86..341 are the high parts
`src[c] >> 2`, byte 342 duplicates byte 341, each byte from index **341**
(not 342) down to 1 is XORed with its original (pre-update) predecessor, and
every byte is mapped through the fixed 64-entry nibble table, yielding exactly
343 output bytes. -/
theorem encode_6_and_2_eq_reference (src : Nat → Nat) :
    encodedSector src = spec_encodedSector_amended src ∧
      (encodedSector src).length = 343 := by
  constructor
  · unfold encodedSector spec_encodedSector_amended
    exact List.map_congr_left fun c _ => by
      unfold encode_6_and_2
      rw [dest_post_eq_amended]
  · simp [encodedSector]

/-! ### Bounds on the intermediate bytes (claim C9) -/

/-- XOR of two six-bit values is a six-bit value. -/
theorem xor_lt_64 {a b : Nat} (ha : a < 64) (hb : b < 64) : a ^^^ b < 64 :=
  Nat.bitwise_lt (n := 6) ha hb

/-- Every byte of the pre-XOR fill is at most `0x3F` for 8-bit source bytes. -/
theorem dest_fill_lt (src : Nat → Nat) (h : ∀ i, src i < 256) (c : Nat) :
    dest_fill src c < 64 := by
  have hp3 : ∀ a < 4, ∀ b < 4, ∀ c' < 4, a ||| (b <<< 2) ||| (c' <<< 4) < 64 := by
    decide
  have hp2 : ∀ a < 4, ∀ b < 4, a ||| (b <<< 2) < 64 := by decide
  unfold dest_fill
  split_ifs
  · exact hp3 _ (bit_reverse_lt _) _ (bit_reverse_lt _) _ (bit_reverse_lt _)
  · exact hp2 _ (bit_reverse_lt _) _ (bit_reverse_lt _)
  · exact hp2 _ (bit_reverse_lt _) _ (bit_reverse_lt _)
  · have := h (c - 86)
    rw [Nat.shiftRight_eq_div_pow]
    omega
  · decide

/-- Every byte after the duplication step is at most `0x3F`. -/
theorem dest_dup_lt (src : Nat → Nat) (h : ∀ i, src i < 256) (c : Nat) :
    dest_dup src c < 64 := by
  unfold dest_dup
  split_ifs <;> exact dest_fill_lt src h _

/-- C9: for 8-bit source bytes, every intermediate byte at the moment of the
final table lookup (after packing, high-part copy, duplication, and the XOR
chain) is `≤ 0x3F`, so the 64-entry `six_and_two_mapping` lookup is always in
bounds and a guarded (`Option`-returning) lookup never returns `none`. -/
theorem six_and_two_lookup_in_bounds (src : Nat → Nat) (h : ∀ i, src i < 256)
    (c : Nat) (_hc : c < 343) :
    dest_post src c < 64 ∧
      (six_and_two_mapping[dest_post src c]?).isSome = true := by
  have hlt : dest_post src c < 64 := by
    rw [dest_post_eq]
    split_ifs
    · exact xor_lt_64 (dest_dup_lt src h _) (dest_dup_lt src h _)
    · exact dest_dup_lt src h _
  refine ⟨hlt, ?_⟩
  rw [List.getElem?_eq_getElem
    (by rw [show six_and_two_mapping.length = 64 from rfl]; exact hlt)]
  rfl

/-- Witness for `six_and_two_lookup_in_bounds` at the all-zero sector. -/
theorem six_and_two_lookup_in_bounds_witness :
    dest_post (fun _ => 0) 0 < 64 ∧
      (six_and_two_mapping[dest_post (fun _ => 0) 0]?).isSome = true :=
  six_and_two_lookup_in_bounds (fun _ => 0) (fun _ => Nat.succ_pos 255) 0 (by decide)

/-! ## Sector interleave (claim C2) -/

/-- The `dsk_sector_format` enumeration. -/
inductive dsk_sector_format
  | dos_3_3
  | prodos
deriving DecidableEq

/-- The physical-to-logical sector map of `encode_bits_for_track`:
`s == 15 → 15`, otherwise `(s * multiplier) % 15` with multiplier 8 for
ProDOS and 7 for DOS 3.3. -/
def logical_sector (fmt : dsk_sector_format) (s : Nat) : Nat :=
  if s = 15 then 15
  else (s * (if fmt = dsk_sector_format.prodos then 8 else 7)) % 15

/-- C2: for each sector format the physical-to-logical sector map is a
bijection from physical sectors `{0..15}` onto logical sectors `{0..15}`:
injective (no two physical sectors share a logical sector) and surjective
(every logical sector is covered). -/
theorem logical_sector_bijective (fmt : dsk_sector_format) :
    (∀ s₁ s₂ : Fin 16,
        logical_sector fmt s₁.val = logical_sector fmt s₂.val → s₁ = s₂) ∧
      (∀ L : Fin 16, ∃ s : Fin 16, logical_sector fmt s.val = L.val) := by
  cases fmt
  · exact ⟨by decide, by decide⟩
  · exact ⟨by decide, by decide⟩

/-! ## Bit writer (claim C10) -/

/-- `bits_write_byte`: OR `value`'s 8 bits MSB-first into the byte buffer at
bit offset `index`; stores truncate to 8 bits as the C `uint8_t` buffer does;
returns the new state and `index + 8`.  Unlike the C original, the modelled
buffer is a total function, so there is no capacity precondition. -/
def bits_write_byte (buffer : Nat → Nat) (index : Nat) (value : Nat) :
    (Nat → Nat) × Nat :=
  let shift := index % 8
  let byte_position := index / 8
  let b1 : Nat → Nat := fun j =>
    if j = byte_position then (buffer j ||| (value >>> shift)) % 256 else buffer j
  let b2 : Nat → Nat :=
    if shift = 0 then b1 else fun j =>
      if j = byte_position + 1 then (b1 j ||| (value <<< (8 - shift))) % 256
      else b1 j
  (b2, index + 8)

/-- A truncating OR-store has exactly the union of the low 8 bits. -/
theorem store_testBit (a x k : Nat) (hk : k < 8) :
    ((a ||| x) % 256).testBit k = (a.testBit k || x.testBit k) := by
  rw [show (256 : Nat) = 2 ^ 8 from rfl, Nat.testBit_mod_two_pow, Nat.testBit_or]
  simp [hk]

/-- A byte value has no bits at positions 8 and above. -/
theorem byte_testBit_false {a k : Nat} (ha : a < 256) (hk : 8 ≤ k) :
    a.testBit k = false := by
  apply Nat.testBit_lt_two_pow
  calc a < 256 := ha
    _ = 2 ^ 8 := rfl
    _ ≤ 2 ^ k := Nat.pow_le_pow_right (by omega) hk

/-- Pointwise description of the buffer returned by `bits_write_byte`. -/
theorem bits_write_byte_apply (buffer : Nat → Nat) (index value j : Nat) :
    (bits_write_byte buffer index value).1 j =
      if j = index / 8 then (buffer j ||| (value >>> (index % 8))) % 256
      else if j = index / 8 + 1 ∧ index % 8 ≠ 0 then
        (buffer j ||| (value <<< (8 - index % 8))) % 256
      else buffer j := by
  simp only [bits_write_byte]
  by_cases hsh : index % 8 = 0
  · rw [if_pos hsh]
    by_cases hj : j = index / 8
    · rw [if_pos hj, if_pos hj]
    · rw [if_neg hj, if_neg hj, if_neg (by simp [hsh])]
  · rw [if_neg hsh]
    by_cases hj1 : j = index / 8 + 1
    · rw [if_pos hj1, if_neg (by omega), if_neg (by omega), if_pos ⟨hj1, hsh⟩]
    · rw [if_neg hj1]
      by_cases hj : j = index / 8
      · rw [if_pos hj, if_pos hj]
      · rw [if_neg hj, if_neg hj, if_neg (by simp [hj1, hsh])]

/-- C10: `bits_write_byte` with an 8-bit value on a byte buffer modifies at
most the byte at `index >> 3` and the one after it (the latter only when
`index` is not byte-aligned), only ever sets bits (never clears one), sets no
bit at an MSB-first bit position before `index` or at/after `index + 8`,
leaves every other byte unchanged, and returns `index + 8`. -/
theorem bits_write_byte_frame (buffer : Nat → Nat) (index value : Nat)
    (hval : value < 256) (hbuf : ∀ j, buffer j < 256) :
    (bits_write_byte buffer index value).2 = index + 8 ∧
    (∀ j, j ≠ index / 8 → j ≠ index / 8 + 1 →
      (bits_write_byte buffer index value).1 j = buffer j) ∧
    (index % 8 = 0 →
      (bits_write_byte buffer index value).1 (index / 8 + 1) =
        buffer (index / 8 + 1)) ∧
    (∀ j k, (buffer j).testBit k = true →
      ((bits_write_byte buffer index value).1 j).testBit k = true) ∧
    (∀ j k, k < 8 → ((bits_write_byte buffer index value).1 j).testBit k = true →
      (buffer j).testBit k = true ∨
        (index ≤ 8 * j + (7 - k) ∧ 8 * j + (7 - k) < index + 8)) := by
  have hmod : index % 8 < 8 := Nat.mod_lt _ (by omega)
  have hdiv : 8 * (index / 8) + index % 8 = index := by omega
  refine ⟨rfl, ?_, ?_, ?_, ?_⟩
  · intro j hj hj1
    rw [bits_write_byte_apply, if_neg hj, if_neg (by simp [hj1])]
  · intro hsh
    rw [bits_write_byte_apply, if_neg (by omega), if_neg (by simp [hsh])]
  · intro j k hjk
    have hk8 : k < 8 := by
      by_contra hk
      rw [byte_testBit_false (hbuf j) (by omega)] at hjk
      exact Bool.noConfusion hjk
    rw [bits_write_byte_apply]
    split_ifs
    · rw [store_testBit _ _ _ hk8, hjk]; rfl
    · rw [store_testBit _ _ _ hk8, hjk]; rfl
    · exact hjk
  · intro j k hk8 hout
    rw [bits_write_byte_apply] at hout
    split_ifs at hout with hj hj1
    · rw [store_testBit _ _ _ hk8, Bool.or_eq_true] at hout
      rcases hout with hb | hv
      · exact Or.inl hb
      · rw [Nat.testBit_shiftRight] at hv
        have hlt : index % 8 + k < 8 := by
          by_contra hge
          rw [byte_testBit_false hval (by omega)] at hv
          exact Bool.noConfusion hv
        subst hj
        omega
    · rw [store_testBit _ _ _ hk8, Bool.or_eq_true] at hout
      rcases hout with hb | hv
      · exact Or.inl hb
      · rw [Nat.testBit_shiftLeft, Bool.and_eq_true, decide_eq_true_iff] at hv
        obtain ⟨hge, -⟩ := hv
        obtain ⟨hj1', hsh⟩ := hj1
        subst hj1'
        omega
    · exact Or.inl hout

/-- Witness for `bits_write_byte_frame`: writing `0xFF` at bit offset 3 of an
all-zero buffer. -/
theorem bits_write_byte_frame_witness :
    (255 : Nat) < 256 ∧
    ((bits_write_byte (fun _ => 0) 3 255).2 = 3 + 8 ∧
    (∀ j, j ≠ 3 / 8 → j ≠ 3 / 8 + 1 →
      (bits_write_byte (fun _ => 0) 3 255).1 j = 0) ∧
    (3 % 8 = 0 → (bits_write_byte (fun _ => 0) 3 255).1 (3 / 8 + 1) = 0) ∧
    (∀ j k, (0 : Nat).testBit k = true →
      ((bits_write_byte (fun _ => 0) 3 255).1 j).testBit k = true) ∧
    (∀ j k, k < 8 → ((bits_write_byte (fun _ => 0) 3 255).1 j).testBit k = true →
      (0 : Nat).testBit k = true ∨
        (3 ≤ 8 * j + (7 - k) ∧ 8 * j + (7 - k) < 3 + 8))) :=
  ⟨by decide,
   bits_write_byte_frame (fun _ => 0) 3 255 (by decide) (fun _ => Nat.succ_pos 255)⟩

/-! ## Track encoder (claim C3) -/

/-- `bits_write_4_and_4` -/
def bits_write_4_and_4 (buffer : Nat → Nat) (index : Nat) (value : Nat) :
    (Nat → Nat) × Nat :=
  let r1 := bits_write_byte buffer index ((value >>> 1) ||| 0xAA)
  bits_write_byte r1.1 r1.2 (value ||| 0xAA)

/-- `bits_write_sync` -/
def bits_write_sync (buffer : Nat → Nat) (index : Nat) : (Nat → Nat) × Nat :=
  let r := bits_write_byte buffer index 0xFF
  (r.1, r.2 + 2)

def write_syncs : ((Nat → Nat) × Nat) → Nat → ((Nat → Nat) × Nat)
  | st, 0 => st
  | st, n + 1 => write_syncs (bits_write_sync st.1 st.2) n

def write_byte_list : ((Nat → Nat) × Nat) → List Nat → ((Nat → Nat) × Nat)
  | st, [] => st
  | st, v :: rest => write_byte_list (bits_write_byte st.1 st.2 v) rest

def encode_sector_bits (src : Nat → Nat) (track_number s : Nat)
    (fmt : dsk_sector_format) (st : (Nat → Nat) × Nat) : (Nat → Nat) × Nat :=
  let st := write_byte_list st [0xD5, 0xAA, 0x96]
  let st := bits_write_4_and_4 st.1 st.2 254
  let st := bits_write_4_and_4 st.1 st.2 track_number
  let st := bits_write_4_and_4 st.1 st.2 s
  let st := bits_write_4_and_4 st.1 st.2 (254 ^^^ track_number ^^^ s)
  let st := write_byte_list st [0xDE, 0xAA, 0xEB]
  let st := write_syncs st 7
  let st := write_byte_list st [0xD5, 0xAA, 0xAD]
  let st := write_byte_list st
    (encodedSector (fun i => src (logical_sector fmt s * 256 + i)))
  let st := write_byte_list st [0xDE, 0xAA, 0xEB]
  if s < 15 then write_syncs st 16
  else bits_write_byte st.1 st.2 0xFF

def sector_loop (src : Nat → Nat) (track_number : Nat) (fmt : dsk_sector_format) :
    Nat → Nat → ((Nat → Nat) × Nat) → ((Nat → Nat) × Nat)
  | _, 0, st => st
  | s, n + 1, st =>
    sector_loop src track_number fmt (s + 1) n
      (encode_sector_bits src track_number s fmt st)

def encode_bits_for_track (src : Nat → Nat) (track_number : Nat)
    (fmt : dsk_sector_format) : (Nat → Nat) × Nat :=
  sector_loop src track_number fmt 0 16 (write_syncs ((fun _ => 0), 0) 64)

theorem bits_write_byte_snd (b : Nat → Nat) (i v : Nat) :
    (bits_write_byte b i v).2 = i + 8 := rfl

theorem bits_write_sync_snd (b : Nat → Nat) (i : Nat) :
    (bits_write_sync b i).2 = i + 10 := rfl

theorem bits_write_4_and_4_snd (b : Nat → Nat) (i v : Nat) :
    (bits_write_4_and_4 b i v).2 = i + 16 := rfl

theorem write_syncs_snd : ∀ (n : Nat) (st : (Nat → Nat) × Nat),
    (write_syncs st n).2 = st.2 + 10 * n := by
  intro n
  induction n with
  | zero => intro st; simp [write_syncs]
  | succ m ih =>
    intro st
    rw [write_syncs, ih]
    simp [bits_write_sync_snd]
    omega

theorem write_byte_list_snd : ∀ (l : List Nat) (st : (Nat → Nat) × Nat),
    (write_byte_list st l).2 = st.2 + 8 * l.length := by
  intro l
  induction l with
  | nil => intro st; simp [write_byte_list]
  | cons v rest ih =>
    intro st
    rw [write_byte_list, ih]
    simp [bits_write_byte_snd]
    omega

theorem length_encodedSector (src : Nat → Nat) :
    (encodedSector src).length = 343 := by simp [encodedSector]

theorem encode_sector_bits_snd (src : Nat → Nat) (tn s : Nat)
    (fmt : dsk_sector_format) (st : (Nat → Nat) × Nat) :
    (encode_sector_bits src tn s fmt st).2 =
      st.2 + (if s < 15 then 3134 else 2982) := by
  unfold encode_sector_bits
  by_cases h : s < 15
  · rw [if_pos h, if_pos h, write_syncs_snd]
    simp [write_byte_list_snd, write_syncs_snd, bits_write_4_and_4_snd,
      bits_write_byte_snd, length_encodedSector]
  · rw [if_neg h, if_neg h, bits_write_byte_snd]
    simp [write_byte_list_snd, write_syncs_snd, bits_write_4_and_4_snd,
      bits_write_byte_snd, length_encodedSector]

theorem sector_loop_snd (src : Nat → Nat) (tn : Nat) (fmt : dsk_sector_format) :
    ∀ (n s : Nat) (st : (Nat → Nat) × Nat), s + n = 16 → 1 ≤ n →
    (sector_loop src tn fmt s n st).2 = st.2 + (n - 1) * 3134 + 2982 := by
  intro n
  induction n with
  | zero => intro s st h h1; omega
  | succ m ih =>
    intro s st h h1
    rcases Nat.eq_zero_or_pos m with hm | hm
    · subst hm
      have hs : s = 15 := by omega
      subst hs
      rw [sector_loop, sector_loop, encode_sector_bits_snd]
      simp
    · rw [sector_loop,
        ih (s + 1) (encode_sector_bits src tn s fmt st) (by omega) hm,
        encode_sector_bits_snd, if_pos (by omega)]
      omega

theorem encode_bits_for_track_snd (src : Nat → Nat) (tn : Nat)
    (fmt : dsk_sector_format) :
    (encode_bits_for_track src tn fmt).2 = 50632 := by
  rw [encode_bits_for_track,
    sector_loop_snd src tn fmt 16 0 _ (by omega) (by omega), write_syncs_snd]

/-- C3: for every disk image, track numbers below 35, and either sector
format, `encode_bits_for_track` returns the same `valid_bit_count`
(independent of the track number and of the sector contents), and that value
is at most 53,248 — the bit capacity of one 13-block track buffer. -/
theorem valid_bit_count_uniform (dsk1 dsk2 : Nat → Nat) (t1 t2 : Nat)
    (fmt1 fmt2 : dsk_sector_format) (_h1 : t1 < 35) (_h2 : t2 < 35) :
    (encode_bits_for_track dsk1 t1 fmt1).2 =
      (encode_bits_for_track dsk2 t2 fmt2).2 ∧
    (encode_bits_for_track dsk1 t1 fmt1).2 ≤ 53248 := by
  rw [encode_bits_for_track_snd, encode_bits_for_track_snd]
  exact ⟨rfl, by omega⟩

/-- Witness for `valid_bit_count_uniform` on the all-zero disk, tracks 0/1. -/
theorem valid_bit_count_uniform_witness :
    (encode_bits_for_track (fun _ => 0) 0 dsk_sector_format.dos_3_3).2 =
      (encode_bits_for_track (fun _ => 0) 1 dsk_sector_format.dos_3_3).2 ∧
    (encode_bits_for_track (fun _ => 0) 0 dsk_sector_format.dos_3_3).2 ≤ 53248 :=
  valid_bit_count_uniform (fun _ => 0) (fun _ => 0) 0 1
    dsk_sector_format.dos_3_3 dsk_sector_format.dos_3_3 (by decide) (by decide)

/-! ## Byte serialization helpers (`write_uint16`, `write_uint32`, `write_uint32_be`) -/

/-- `write_uint16`: two little-endian bytes. -/
def le16 (v : Nat) : List Nat := [v % 256, (v >>> 8) % 256]

/-- `write_uint32`: four little-endian bytes. -/
def le32 (v : Nat) : List Nat :=
  [v % 256, (v >>> 8) % 256, (v >>> 16) % 256, (v >>> 24) % 256]

/-- `write_uint32_be`: four big-endian bytes. -/
def be32 (v : Nat) : List Nat :=
  [(v >>> 24) % 256, (v >>> 16) % 256, (v >>> 8) % 256, v % 256]

/-- Decode a little-endian 32-bit value stored at byte offset `off`. -/
def readLE32 (l : List Nat) (off : Nat) : Nat :=
  l.getD off 0 + 256 * l.getD (off + 1) 0 + 65536 * l.getD (off + 2) 0 +
    16777216 * l.getD (off + 3) 0

/-! ## CRC-32 engine -/

/-- The 256-entry table `crc32_tab` (reflected polynomial `0xEDB88320`). -/
def crc32_tab : List Nat :=
  [0x00000000, 0x77073096, 0xee0e612c, 0x990951ba, 0x076dc419, 0x706af48f,
   0xe963a535, 0x9e6495a3, 0x0edb8832, 0x79dcb8a4, 0xe0d5e91e, 0x97d2d988,
   0x09b64c2b, 0x7eb17cbd, 0xe7b82d07, 0x90bf1d91, 0x1db71064, 0x6ab020f2,
   0xf3b97148, 0x84be41de, 0x1adad47d, 0x6ddde4eb, 0xf4d4b551, 0x83d385c7,
   0x136c9856, 0x646ba8c0, 0xfd62f97a, 0x8a65c9ec, 0x14015c4f, 0x63066cd9,
   0xfa0f3d63, 0x8d080df5, 0x3b6e20c8, 0x4c69105e, 0xd56041e4, 0xa2677172,
   0x3c03e4d1, 0x4b04d447, 0xd20d85fd, 0xa50ab56b, 0x35b5a8fa, 0x42b2986c,
   0xdbbbc9d6, 0xacbcf940, 0x32d86ce3, 0x45df5c75, 0xdcd60dcf, 0xabd13d59,
   0x26d930ac, 0x51de003a, 0xc8d75180, 0xbfd06116, 0x21b4f4b5, 0x56b3c423,
   0xcfba9599, 0xb8bda50f, 0x2802b89e, 0x5f058808, 0xc60cd9b2, 0xb10be924,
   0x2f6f7c87, 0x58684c11, 0xc1611dab, 0xb6662d3d, 0x76dc4190, 0x01db7106,
   0x98d220bc, 0xefd5102a, 0x71b18589, 0x06b6b51f, 0x9fbfe4a5, 0xe8b8d433,
   0x7807c9a2, 0x0f00f934, 0x9609a88e, 0xe10e9818, 0x7f6a0dbb, 0x086d3d2d,
   0x91646c97, 0xe6635c01, 0x6b6b51f4, 0x1c6c6162, 0x856530d8, 0xf262004e,
   0x6c0695ed, 0x1b01a57b, 0x8208f4c1, 0xf50fc457, 0x65b0d9c6, 0x12b7e950,
   0x8bbeb8ea, 0xfcb9887c, 0x62dd1ddf, 0x15da2d49, 0x8cd37cf3, 0xfbd44c65,
   0x4db26158, 0x3ab551ce, 0xa3bc0074, 0xd4bb30e2, 0x4adfa541, 0x3dd895d7,
   0xa4d1c46d, 0xd3d6f4fb, 0x4369e96a, 0x346ed9fc, 0xad678846, 0xda60b8d0,
   0x44042d73, 0x33031de5, 0xaa0a4c5f, 0xdd0d7cc9, 0x5005713c, 0x270241aa,
   0xbe0b1010, 0xc90c2086, 0x5768b525, 0x206f85b3, 0xb966d409, 0xce61e49f,
   0x5edef90e, 0x29d9c998, 0xb0d09822, 0xc7d7a8b4, 0x59b33d17, 0x2eb40d81,
   0xb7bd5c3b, 0xc0ba6cad, 0xedb88320, 0x9abfb3b6, 0x03b6e20c, 0x74b1d29a,
   0xead54739, 0x9dd277af, 0x04db2615, 0x73dc1683, 0xe3630b12, 0x94643b84,
   0x0d6d6a3e, 0x7a6a5aa8, 0xe40ecf0b, 0x9309ff9d, 0x0a00ae27, 0x7d079eb1,
   0xf00f9344, 0x8708a3d2, 0x1e01f268, 0x6906c2fe, 0xf762575d, 0x806567cb,
   0x196c3671, 0x6e6b06e7, 0xfed41b76, 0x89d32be0, 0x10da7a5a, 0x67dd4acc,
   0xf9b9df6f, 0x8ebeeff9, 0x17b7be43, 0x60b08ed5, 0xd6d6a3e8, 0xa1d1937e,
   0x38d8c2c4, 0x4fdff252, 0xd1bb67f1, 0xa6bc5767, 0x3fb506dd, 0x48b2364b,
   0xd80d2bda, 0xaf0a1b4c, 0x36034af6, 0x41047a60, 0xdf60efc3, 0xa867df55,
   0x316e8eef, 0x4669be79, 0xcb61b38c, 0xbc66831a, 0x256fd2a0, 0x5268e236,
   0xcc0c7795, 0xbb0b4703, 0x220216b9, 0x5505262f, 0xc5ba3bbe, 0xb2bd0b28,
   0x2bb45a92, 0x5cb36a04, 0xc2d7ffa7, 0xb5d0cf31, 0x2cd99e8b, 0x5bdeae1d,
   0x9b64c2b0, 0xec63f226, 0x756aa39c, 0x026d930a, 0x9c0906a9, 0xeb0e363f,
   0x72076785, 0x05005713, 0x95bf4a82, 0xe2b87a14, 0x7bb12bae, 0x0cb61b38,
   0x92d28e9b, 0xe5d5be0d, 0x7cdcefb7, 0x0bdbdf21, 0x86d3d2d4, 0xf1d4e242,
   0x68ddb3f8, 0x1fda836e, 0x81be16cd, 0xf6b9265b, 0x6fb077e1, 0x18b74777,
   0x88085ae6, 0xff0f6a70, 0x66063bca, 0x11010b5c, 0x8f659eff, 0xf862ae69,
   0x616bffd3, 0x166ccf45, 0xa00ae278, 0xd70dd2ee, 0x4e048354, 0x3903b3c2,
   0xa7672661, 0xd06016f7, 0x4969474d, 0x3e6e77db, 0xaed16a4a, 0xd9d65adc,
   0x40df0b66, 0x37d83bf0, 0xa9bcae53, 0xdebb9ec5, 0x47b2cf7f, 0x30b5ffe9,
   0xbdbdf21c, 0xcabac28a, 0x53b39330, 0x24b4a3a6, 0xbad03605, 0xcdd70693,
   0x54de5729, 0x23d967bf, 0xb3667a2e, 0xc4614ab8, 0x5d681b02, 0x2a6f2b94,
   0xb40bbe37, 0xc30c8ea1, 0x5a05df1b, 0x2d02ef8d]

/-- One step of the `crc32` loop:
`crc = crc32_tab[(crc ^ *p++) & 0xFF] ^ (crc >> 8)`. -/
def crc32_update (crc b : Nat) : Nat :=
  crc32_tab.getD ((crc ^^^ b) % 256) 0 ^^^ (crc >>> 8)

/-- `crc32`: table-driven CRC-32, accumulator inverted before and after
processing the byte list. -/
def crc32 (crc : Nat) (buf : List Nat) : Nat :=
  (buf.foldl crc32_update (crc ^^^ 0xFFFFFFFF)) ^^^ 0xFFFFFFFF

/-! ## Chunk builders -/

/-- `create_info_chunk` payload (60 bytes): INFO version 2, disk type 1,
flags, the 32-byte space-padded creator "dsk2woz2", sides, boot format,
bit timing, and the three 16-bit fields; the tail stays zero from `calloc`. -/
def info_data : List Nat :=
  [2, 1, 0, 0, 1] ++
  ([0x64, 0x73, 0x6B, 0x32, 0x77, 0x6F, 0x7A, 0x32] ++ List.replicate 24 0x20) ++
  [1, 1, 32] ++ le16 0 ++ le16 0 ++ le16 13 ++ List.replicate 14 0

/-- `create_tmap_chunk` entry for quarter-track `t`. -/
def tmap_entry (t : Nat) : Nat :=
  if t < 35 * 4 - 1 then
    match t % 4 with
    | 0 => t / 4
    | 1 => t / 4
    | 2 => 0xFF
    | _ => t / 4 + 1
  else 0xFF

/-- `create_tmap_chunk` payload (160 bytes). -/
def tmap_data : List Nat := (List.range 160).map tmap_entry

/-- One 8-byte TRK directory entry: little-endian starting block, block
count 13, and 32-bit valid bit count. -/
def trk_entry (starting_block vbc : Nat) : List Nat :=
  le16 starting_block ++ le16 13 ++ le32 vbc

/-- The populated TRK directory entries of `create_trks_chunk`, carrying the
accumulating `starting_block` (the C `uint16_t` never exceeds 3 + 34·13 = 445,
so plain `Nat` addition is exact). -/
def trk_dir : Nat → Nat → Nat → List Nat
  | _, _, 0 => []
  | sb, vbc, n + 1 => trk_entry sb vbc ++ trk_dir (sb + 13) vbc n

/-- `create_trks_chunk` payload: 35 populated 8-byte directory entries
starting at block 3, the remaining 125 entries zero from `calloc`, then the
concatenated track buffers copied at offset 1280. -/
def trks_data (track_bytes : List Nat) (vbc : Nat) : List Nat :=
  trk_dir 3 vbc 35 ++ List.replicate 1000 0 ++ track_bytes

/-- One 20-byte WRIT descriptor of `create_writ_chunk` for track `t`:
quarter-track index `t*4`, command count 1, flags 0, reserved, CRC-32 over
`(vbc + 7) / 8` bytes of the raw track buffer from its start, the 640-bit
leader skip, the `uint32` rewrite bit count `vbc - 640`, leader nibble
`0xFF`, leader nibble bit count 10, leader count 0, padding. -/
def writ_entry (track_bytes : List Nat) (vbc t : Nat) : List Nat :=
  [(t * 4) % 256, 1, 0, 0] ++
  le32 (crc32 0 ((track_bytes.drop (t * 6656)).take ((vbc + 7) / 8))) ++
  le32 640 ++ le32 ((vbc + (4294967296 - 640)) % 4294967296) ++
  [0xFF, 10, 0, 0]

/-- The WRIT descriptors for tracks `t, t+1, ...` (`n` of them). -/
def writ_entries (track_bytes : List Nat) (vbc : Nat) : Nat → Nat → List Nat
  | _, 0 => []
  | t, n + 1 => writ_entry track_bytes vbc t ++ writ_entries track_bytes vbc (t + 1) n

/-- `create_writ_chunk` payload: 35 consecutive 20-byte descriptors. -/
def writ_data (track_bytes : List Nat) (vbc : Nat) : List Nat :=
  writ_entries track_bytes vbc 0 35

/-! ## TMAP properties (claims C5, C6) -/

set_option maxRecDepth 10000 in
/-- C5: every quarter-track entry `t` of the TMAP payload is `0xFF` when
`t % 4 == 2` or `t ≥ 139`; otherwise (populated region) it is `t/4` when
`t % 4 ∈ {0, 1}` and `t/4 + 1` when `t % 4 == 3` (the unused-entry clause
takes precedence for `t ≥ 139`, per the spec's parenthetical that the map is
cut off one quarter-track early). -/
theorem tmap_entries_spec : ∀ t : Fin 160,
    tmap_data.getD t.val 0 =
      if t.val % 4 = 2 ∨ 139 ≤ t.val then 0xFF
      else if t.val % 4 = 3 then t.val / 4 + 1
      else t.val / 4 := by
  decide

/-- C6 (counterexample): the TMAP payload does **not** have exactly 21
entries equal to `0xFF` — the 35 interior `x.50` quarter-track entries are
also `0xFF`, giving 56 in total. -/
theorem tmap_ff_count_ne : tmap_data.count 255 ≠ 21 := by decide

/-- C6 (amended): the TMAP chunk for a 35-track standard disk has exactly 104
populated (non-`0xFF`) entries; 56 entries equal `0xFF`: the 21 at positions
139..159 plus the 35 interior `x.50` quarter-track positions below 139. -/
theorem tmap_counts :
    (tmap_data.filter (fun b => b ≠ 255)).length = 104 ∧
    tmap_data.count 255 = 56 ∧
    (tmap_data.take 139).count 255 = 35 ∧
    (tmap_data.drop 139).count 255 = 21 := by decide

/-! ## TRKS chunk layout (claim C7) -/

/-- A TRK directory entry is 8 bytes. -/
theorem trk_entry_length (sb vbc : Nat) : (trk_entry sb vbc).length = 8 := by
  simp [trk_entry, le16, le32]

/-- The populated directory region is 8 bytes per entry. -/
theorem trk_dir_length : ∀ (n sb vbc : Nat), (trk_dir sb vbc n).length = 8 * n := by
  intro n
  induction n with
  | zero => intro sb vbc; simp [trk_dir]
  | succ m ih =>
    intro sb vbc
    rw [trk_dir]
    simp [trk_entry_length, ih]
    omega

/-- Dropping `8 * i` bytes of the populated directory (plus anything
appended) exposes entry `i`, whose starting block is `sb + 13 * i`. -/
theorem trk_dir_drop : ∀ (i n : Nat), i < n → ∀ (sb vbc : Nat) (rest : List Nat),
    (trk_dir sb vbc n ++ rest).drop (8 * i) =
      trk_entry (sb + 13 * i) vbc ++
        (trk_dir (sb + 13 * i + 13) vbc (n - i - 1) ++ rest) := by
  intro i
  induction i with
  | zero =>
    intro n hn sb vbc rest
    match n, hn with
    | m + 1, _ =>
      rw [trk_dir, List.append_assoc]
      simp
  | succ j ih =>
    intro n hn sb vbc rest
    match n, hn with
    | m + 1, hn =>
      rw [trk_dir, List.append_assoc,
        show 8 * (j + 1) = (trk_entry sb vbc).length + 8 * j from by
          rw [trk_entry_length]; omega,
        List.drop_append, ih m (by omega) (sb + 13) vbc rest,
        show sb + 13 + 13 * j = sb + 13 * (j + 1) from by omega,
        show m - j - 1 = m + 1 - (j + 1) - 1 from by omega]

/-- C7: in the TRKS payload, directory entry `i` (8 bytes at offset `8*i`,
`i < 35`) holds the little-endian starting block `3 + 13*i`, the little-endian
block count 13, and the little-endian 32-bit valid bit count; directory slots
35..159 (bytes 280..1279) are all zero; and the concatenated track buffers
begin exactly 1,280 bytes into the payload. -/
theorem trks_chunk_layout (tb : List Nat) (vbc i : Nat) (hi : i < 35) :
    ((trks_data tb vbc).drop (8 * i)).take 8 =
      le16 (3 + 13 * i) ++ le16 13 ++ le32 vbc ∧
    (∀ j, 280 ≤ j → j < 1280 → (trks_data tb vbc).getD j 0 = 0) ∧
    (trks_data tb vbc).drop 1280 = tb := by
  refine ⟨?_, ?_, ?_⟩
  · rw [trks_data, List.append_assoc]
    rw [trk_dir_drop i 35 hi 3 vbc _]
    rw [List.take_left' (trk_entry_length _ _)]
    rw [trk_entry]
  · intro j h1 h2
    rw [trks_data, List.append_assoc]
    rw [List.getD_append_right _ _ _ _ (by rw [trk_dir_length]; omega)]
    rw [List.getD_append _ _ _ _
      (by rw [List.length_replicate, trk_dir_length]; omega)]
    rw [List.getD_eq_getElem?_getD]
    exact List.getElem?_getD_replicate_default_eq (d := 0) 1000 _
  · rw [trks_data, List.append_assoc,
      show (1280:Nat) = (trk_dir 3 vbc 35).length + 1000 from by
        rw [trk_dir_length],
      List.drop_append, List.drop_left' (List.length_replicate 1000 0)]

/-- Witness for `trks_chunk_layout`: empty track bytes, zero count, entry 0. -/
theorem trks_chunk_layout_witness :
    ((trks_data [] 0).drop (8 * 0)).take 8 =
      le16 (3 + 13 * 0) ++ le16 13 ++ le32 0 ∧
    (∀ j, 280 ≤ j → j < 1280 → (trks_data [] 0).getD j 0 = 0) ∧
    (trks_data [] 0).drop 1280 = [] :=
  trks_chunk_layout [] 0 0 (by decide)

/-! ## WRIT chunk layout (claim C8) -/

/-- A WRIT descriptor is 20 bytes. -/
theorem writ_entry_length (tb : List Nat) (vbc t : Nat) :
    (writ_entry tb vbc t).length = 20 := by
  simp [writ_entry, le32]

/-- Dropping `20 * i` bytes of consecutive WRIT descriptors (plus anything
appended) exposes the descriptor of track `t + i`. -/
theorem writ_entries_drop :
    ∀ (i n : Nat), i < n → ∀ (t : Nat) (tb : List Nat) (vbc : Nat) (rest : List Nat),
    (writ_entries tb vbc t n ++ rest).drop (20 * i) =
      writ_entry tb vbc (t + i) ++
        (writ_entries tb vbc (t + i + 1) (n - i - 1) ++ rest) := by
  intro i
  induction i with
  | zero =>
    intro n hn t tb vbc rest
    match n, hn with
    | m + 1, _ =>
      rw [writ_entries, List.append_assoc]
      simp
  | succ j ih =>
    intro n hn t tb vbc rest
    match n, hn with
    | m + 1, hn =>
      rw [writ_entries, List.append_assoc,
        show 20 * (j + 1) = (writ_entry tb vbc t).length + 20 * j from by
          rw [writ_entry_length]; omega,
        List.drop_append, ih m (by omega) (t + 1) tb vbc rest,
        show t + 1 + j = t + (j + 1) from by omega,
        show m - j - 1 = m + 1 - (j + 1) - 1 from by omega]

/-- C8: for every track `t < 35`, the 20-byte WRIT descriptor `t` holds the
track-to-write index `t*4`, command count 1, flags 0 plus a reserved byte, a
CRC-32 over `ceil(valid_bit_count / 8)` bytes of the raw track buffer from its
beginning (leader included), the fixed 640-bit leader skip, a rewrite bit
count of `valid_bit_count - 640`, leader nibble `0xFF`, leader nibble bit
count 10, leader count 0, and one padding byte. -/
theorem writ_chunk_descriptors (tb : List Nat) (vbc t : Nat) (ht : t < 35)
    (h1 : 640 ≤ vbc) (h2 : vbc < 4294967296) :
    ((writ_data tb vbc).drop (20 * t)).take 20 =
      [t * 4, 1, 0, 0] ++
      le32 (crc32 0 ((tb.drop (t * 6656)).take ((vbc + 7) / 8))) ++
      le32 640 ++ le32 (vbc - 640) ++ [0xFF, 10, 0, 0] := by
  rw [writ_data, ← List.append_nil (writ_entries tb vbc 0 35),
    writ_entries_drop t 35 ht 0 tb vbc [],
    List.take_left' (writ_entry_length _ _ _), writ_entry,
    show (0:Nat) + t = t from by omega,
    show t * 4 % 256 = t * 4 from Nat.mod_eq_of_lt (by omega),
    show (vbc + (4294967296 - 640)) % 4294967296 = vbc - 640 from by omega]

/-- Witness for `writ_chunk_descriptors`: empty track bytes, the minimal
640-bit count, track 0. -/
theorem writ_chunk_descriptors_witness :
    ((writ_data [] 640).drop (20 * 0)).take 20 =
      [0 * 4, 1, 0, 0] ++
      le32 (crc32 0 (([].drop (0 * 6656)).take ((640 + 7) / 8))) ++
      le32 640 ++ le32 (640 - 640) ++ [0xFF, 10, 0, 0] :=
  writ_chunk_descriptors [] 640 0 (by decide) (by decide) (by decide)

/-! ## Container assembly (claim C4) -/

/-- `write_chunk` serialization: big-endian 4-byte tag, little-endian 32-bit
payload length, then the payload. -/
def chunk_bytes (name : Nat) (data : List Nat) : List Nat :=
  be32 name ++ le32 data.length ++ data

/-- The encoded track buffers of all 35 tracks concatenated (`track_data` in
`main`): track `t` is encoded from the 4,096 input bytes at offset `t * 4096`
and its 6,656-byte bit buffer is read back out. -/
def all_track_bytes (dsk : Nat → Nat) (fmt : dsk_sector_format) : List Nat :=
  (List.range 35).flatMap (fun t =>
    (List.range 6656).map
      (encode_bits_for_track (fun i => dsk (t * 4096 + i)) t fmt).1)

/-- `valid_bits_per_track` as `main` leaves it: the return value of the last
loop iteration (track 34), truncated to `uint32` at the call sites. -/
def valid_bits_per_track (dsk : Nat → Nat) (fmt : dsk_sector_format) : Nat :=
  (encode_bits_for_track (fun i => dsk (34 * 4096 + i)) 34 fmt).2 % 4294967296

/-- Everything after the 12-byte header: the four chunks in the fixed order
INFO, TMAP, TRKS, WRIT. -/
def woz_payload (dsk : Nat → Nat) (fmt : dsk_sector_format) : List Nat :=
  chunk_bytes 0x494E464F info_data ++
  chunk_bytes 0x544D4150 tmap_data ++
  chunk_bytes 0x54524B53
    (trks_data (all_track_bytes dsk fmt) (valid_bits_per_track dsk fmt)) ++
  chunk_bytes 0x57524954
    (writ_data (all_track_bytes dsk fmt) (valid_bits_per_track dsk fmt))

/-- The assembled WOZ2 output of `main`: magic `WOZ2` big-endian, `0xFF`,
LF CR LF, the CRC-32 of the payload stored little-endian at offset 8, then
the chunks. -/
def woz_output (dsk : Nat → Nat) (fmt : dsk_sector_format) : List Nat :=
  be32 0x574F5A32 ++ [0xFF, 0x0A, 0x0D, 0x0A] ++
  le32 (crc32 0 (woz_payload dsk fmt)) ++ woz_payload dsk fmt

/-- XOR of two 32-bit values is a 32-bit value. -/
theorem xor_lt_two_pow_32 {a b : Nat} (ha : a < 4294967296)
    (hb : b < 4294967296) : a ^^^ b < 4294967296 :=
  Nat.bitwise_lt (n := 32) ha hb

set_option maxRecDepth 10000 in
/-- Every entry of the CRC table fits in 32 bits. -/
theorem crc32_tab_forall_lt : ∀ x ∈ crc32_tab, x < 4294967296 := by decide

/-- `getD` stays below a bound satisfied by all elements and the default. -/
theorem getD_lt_of_forall :
    ∀ (l : List Nat) (i B d : Nat), (∀ x ∈ l, x < B) → d < B → l.getD i d < B := by
  intro l
  induction l with
  | nil => intro i B d _ hd; simp [List.getD]; exact hd
  | cons a t ih =>
    intro i B d h hd
    cases i with
    | zero => simpa using h a (by simp)
    | succ j => simpa using ih j B d (fun x hx => h x (by simp [hx])) hd

/-- The CRC accumulator stays a 32-bit value across one update step. -/
theorem crc32_update_lt (crc b : Nat) (h : crc < 4294967296) :
    crc32_update crc b < 4294967296 := by
  unfold crc32_update
  exact xor_lt_two_pow_32
    (getD_lt_of_forall _ _ _ _ crc32_tab_forall_lt (by omega))
    (Nat.lt_of_le_of_lt (by rw [Nat.shiftRight_eq_div_pow]; exact Nat.div_le_self _ _) h)

/-- The CRC accumulator stays a 32-bit value across the whole fold. -/
theorem crc32_run_lt :
    ∀ (l : List Nat) (crc : Nat), crc < 4294967296 →
      l.foldl crc32_update crc < 4294967296 := by
  intro l
  induction l with
  | nil => intro crc h; simpa using h
  | cons b t ih => intro crc h; simpa using ih _ (crc32_update_lt crc b h)

/-- `crc32` produces a 32-bit value. -/
theorem crc32_lt (c : Nat) (l : List Nat) (hc : c < 4294967296) :
    crc32 c l < 4294967296 := by
  unfold crc32
  exact xor_lt_two_pow_32
    (crc32_run_lt l _ (xor_lt_two_pow_32 hc (by omega))) (by omega)

/-- Reading a little-endian 32-bit field past a prefix skips the prefix. -/
theorem readLE32_append_right (l1 l2 : List Nat) (off : Nat)
    (h : l1.length ≤ off) :
    readLE32 (l1 ++ l2) off = readLE32 l2 (off - l1.length) := by
  unfold readLE32
  rw [List.getD_append_right _ _ _ _ (by omega),
    List.getD_append_right _ _ _ _ (by omega),
    List.getD_append_right _ _ _ _ (by omega),
    List.getD_append_right _ _ _ _ (by omega),
    show off + 1 - l1.length = off - l1.length + 1 from by omega,
    show off + 2 - l1.length = off - l1.length + 2 from by omega,
    show off + 3 - l1.length = off - l1.length + 3 from by omega]

/-- Reading back a serialized little-endian 32-bit value recovers it. -/
theorem readLE32_le32 (c : Nat) (p : List Nat) (hc : c < 4294967296) :
    readLE32 (le32 c ++ p) 0 = c := by
  simp [readLE32, le32, Nat.shiftRight_eq_div_pow]
  omega

/-- Reading the 32-bit field at offset 8 after an 8-byte prefix. -/
theorem readLE32_mid (hdr8 p : List Nat) (c : Nat) (h8 : hdr8.length = 8)
    (hc : c < 4294967296) :
    readLE32 (hdr8 ++ (le32 c ++ p)) 8 = c := by
  rw [readLE32_append_right _ _ _ (by omega), h8]
  exact readLE32_le32 c p hc

/-- Dropping the 12-byte header exposes the payload. -/
theorem drop12_mid (hdr8 p : List Nat) (c : Nat) (h8 : hdr8.length = 8) :
    (hdr8 ++ (le32 c ++ p)).drop 12 = p := by
  rw [← List.append_assoc]
  exact List.drop_left' (by simp [le32, h8])

/-- C4: for every input disk image and sector format, the assembled output
satisfies the CRC self-check — the 4-byte little-endian value at header
offset 8 equals the CRC-32 (table-driven, reflected polynomial, pre/post
inverted, initial argument 0) of every byte after the 12-byte header. -/
theorem woz_crc_selfcheck (dsk : Nat → Nat) (fmt : dsk_sector_format) :
    readLE32 (woz_output dsk fmt) 8 =
      crc32 0 ((woz_output dsk fmt).drop 12) := by
  have hform : woz_output dsk fmt =
      (be32 0x574F5A32 ++ [0xFF, 0x0A, 0x0D, 0x0A]) ++
        (le32 (crc32 0 (woz_payload dsk fmt)) ++ woz_payload dsk fmt) := by
    rw [woz_output, List.append_assoc]
  rw [hform, readLE32_mid _ _ _ (by simp [be32]) (crc32_lt 0 _ (by omega)),
    drop12_mid _ _ _ (by simp [be32])]

end Dsk2Woz2
